import Mathlib

/-!
Shallow embedding of the todo-mcp task engine.

The embedding covers the parts of the repository that the verified claims
are about:

* the in-memory task repository `TaskRepo` (src/storage/storage.ts):
  `find`, `list`, `create`, `update`, `remove` and the private ancestor
  walk `_checkForCycle`;
* the text patch engine `findAndReplace` (src/unnamed/part_000, the
  append-on-miss variant used by the spec);
* the Markdown bullet-list store `MarkdownStorage.createTask` /
  `MarkdownStorage.getTasks` (src/unnamed/part_001);
* the TOML snapshot store `TomlFileStorage.deleteTask` /
  `TomlFileStorage.getTasks` (src/storage/storage.ts).

Modelling conventions:

* JavaScript strings are `String` where only equality matters (ids, map
  keys) and `List Char` where the code manipulates text character by
  character (the patch engine and the Markdown store).
* JavaScript `string | undefined` fields are `Option String`; JS
  truthiness (`if (x)`) treats both `undefined` and `""` as false, which
  is captured by `strFalsy`.
* Timestamps (`Date`) are `Nat` values supplied by the caller (`now`).
* The unbounded `while` loop of `_checkForCycle` is fuelled; running out
  of fuel models non-termination of the JS loop and is distinct from
  every error the code can throw.
* The file system is an association list from path to content; I/O never
  fails in the model, so the `UnableToModifyFileError` wrapper of the
  patch engine is unreachable, exactly as it is for in-memory operation.
-/

namespace TodoMcp

/-- Task status enumeration from src/type/task.ts. -/
inductive TaskStatus
  | PENDING
  | DONE
  | DELETED
deriving DecidableEq, Repr

/-- The `Task` record from src/type/task.ts (timestamps as `Nat`). -/
structure Task where
  id : String
  parentId : Option String
  title : String
  summary : String
  description : String
  prompt : String
  role : String
  contexts : List String
  status : TaskStatus
  createdAt : Nat
  updatedAt : Nat
deriving DecidableEq, Repr

/-- JS truthiness of a `string | undefined` value: `undefined` and `""`
are falsy, every other string is truthy. -/
def strFalsy : Option String → Bool
  | none => true
  | some s => s == ""

/-- The repository's in-memory `Map<string, Task>`, kept in insertion
order like a JS `Map`. -/
abbrev TaskMap := List (String × Task)

/-- JS `Map.get`. -/
def mapGet (m : TaskMap) (id : String) : Option Task :=
  match m.find? (fun e => e.1 == id) with
  | some e => some e.2
  | none => none

/-- JS `Map.set`: replaces the value in place if the key is present,
otherwise appends (JS `Map` insertion-order semantics). -/
def mapSet (m : TaskMap) (id : String) (t : Task) : TaskMap :=
  if m.any (fun e => e.1 == id) then
    m.map (fun e => if e.1 == id then (id, t) else e)
  else m ++ [(id, t)]

/-- JS `Map.delete`. -/
def mapDelete (m : TaskMap) (id : String) : TaskMap :=
  m.filter (fun e => !(e.1 == id))

/-- Repository errors (the custom error classes of storage.ts).
`outOfFuel` is not a JS error: it marks that the fuelled ancestor walk
would still be running, i.e. the unbounded JS loop diverges. -/
inductive RepoError
  | taskNotFound (id : String)
  | parentNotFound (id : String)
  | cycleError (taskId : String) (parentId : String)
  | missingRequiredField (field : String)
  | outOfFuel
deriving DecidableEq, Repr

/-- Outcome of one run of the ancestor walk. -/
inductive CycleResult
  | cycleDetected
  | ok
  | fuelOut
deriving DecidableEq, Repr

/-- Body of `TaskRepo._checkForCycle`'s `while (currentAncestorId)` loop.
At each step: a falsy current ancestor ends the loop; otherwise, if the
current ancestor equals `taskId` a cycle is reported; otherwise the
ancestor is looked up directly in the map (bypassing the status filter
of `find`), a missing ancestor ends the loop, and the walk moves to that
ancestor's own `parentId`. -/
def checkAux (m : TaskMap) (taskId : String) : Option String → Nat → CycleResult
  | none, _ => .ok
  | some c, fuel =>
    if c = "" then .ok
    else
      match fuel with
      | 0 => .fuelOut
      | fuel' + 1 =>
        if c = taskId then .cycleDetected
        else
          match mapGet m c with
          | none => .ok
          | some t => checkAux m taskId t.parentId fuel'

/-- The method `TaskRepo._checkForCycle` (storage.ts lines 112-136): returns
immediately when the potential parent is falsy, otherwise walks the
ancestor chain starting at `potentialParentId`. -/
def _checkForCycle (m : TaskMap) (taskId : String) (potentialParentId : Option String)
    (fuel : Nat) : CycleResult :=
  if strFalsy potentialParentId then .ok
  else checkAux m taskId potentialParentId fuel

/-- The ancestor chain visited by the walk, written from the spec's
description ("walk the ancestor chain starting at `potentialParentId`");
it lists the ancestor ids the walk inspects, truncated at `fuel` steps. -/
def ancestorChainSpec (m : TaskMap) : Option String → Nat → List String
  | none, _ => []
  | some c, fuel =>
    if c = "" then []
    else
      match fuel with
      | 0 => []
      | fuel' + 1 =>
        c ::
          (match mapGet m c with
           | none => []
           | some t => ancestorChainSpec m t.parentId fuel')

/-- Whether the ancestor chain ends within `fuel` steps, i.e. reaches a
falsy `parentId` or a missing ancestor (the spec's two success
conditions). -/
def chainTerminatesSpec (m : TaskMap) : Option String → Nat → Bool
  | none, _ => true
  | some c, fuel =>
    if c = "" then true
    else
      match fuel with
      | 0 => false
      | fuel' + 1 =>
        match mapGet m c with
        | none => true
        | some t => chainTerminatesSpec m t.parentId fuel'

/-- The method `TaskRepo.find` (storage.ts lines 191-200): the task is returned only
when present in the map with status PENDING; otherwise `undefined`. -/
def TaskRepo.find (m : TaskMap) (id : String) : Option Task :=
  match mapGet m id with
  | some t => if t.status = TaskStatus.PENDING then some t else none
  | none => none

/-- The `CreateTaskDto` interface from storage.ts. -/
structure CreateTaskDto where
  title : String
  summary : String
  description : String
  prompt : String
  role : String
  parentId : Option String := none
  contexts : Option (List String) := none
deriving DecidableEq, Repr

/-- The method `TaskRepo.create` (storage.ts lines 146-184). `genId` stands for the
`randomUUID()` result and `now` for `new Date()`. Required fields are
checked for JS truthiness (an empty string is missing); a truthy
`parentId` is checked through `find` and then through the cycle walk;
the new task gets status PENDING and both timestamps set to `now`. -/
def TaskRepo.create (m : TaskMap) (genId : String) (now : Nat) (fuel : Nat)
    (dto : CreateTaskDto) : Except RepoError (String × TaskMap) :=
  if dto.title = "" then .error (.missingRequiredField "title")
  else if dto.summary = "" then .error (.missingRequiredField "summary")
  else if dto.description = "" then .error (.missingRequiredField "description")
  else if dto.prompt = "" then .error (.missingRequiredField "prompt")
  else if dto.role = "" then .error (.missingRequiredField "role")
  else
    let parentCheck : Except RepoError Unit :=
      match dto.parentId with
      | none => .ok ()
      | some p =>
        if p = "" then .ok ()
        else
          match TaskRepo.find m p with
          | none => .error (.parentNotFound p)
          | some _ =>
            match _checkForCycle m genId (some p) fuel with
            | .cycleDetected => .error (.cycleError genId p)
            | .fuelOut => .error .outOfFuel
            | .ok => .ok ()
    match parentCheck with
    | .error e => .error e
    | .ok _ =>
      let newTask : Task :=
        { id := genId
          parentId := dto.parentId
          title := dto.title
          summary := dto.summary
          description := dto.description
          prompt := dto.prompt
          role := dto.role
          contexts := dto.contexts.getD []
          status := TaskStatus.PENDING
          createdAt := now
          updatedAt := now }
      .ok (genId, mapSet m genId newTask)

/-- The update patch (`Partial<Omit<Task, 'id' | 'createdAt' | 'updatedAt'>>`).
For `parentId` the two levels of `Option` distinguish an absent key
(`none`) from a key present with value `undefined` (`some none`); the
source's `patch[typedKey] !== undefined` guard treats both alike.  For
the other fields a present-but-`undefined` value behaves exactly like an
absent key, so a single `Option` suffices. -/
structure TaskPatch where
  parentId : Option (Option String) := none
  title : Option String := none
  summary : Option String := none
  description : Option String := none
  prompt : Option String := none
  role : Option String := none
  contexts : Option (List String) := none
  status : Option TaskStatus := none
deriving DecidableEq, Repr

/-- The method `TaskRepo.update` (storage.ts lines 215-259). The task is fetched
through the PENDING-filtering `find`; a defined `parentId` patch value is
compared against the current `parentId`, and when it changes: a truthy
new value is checked for existence (`ParentNotFoundError`) and through
the cycle walk (`CycleError`) before being assigned, while a falsy new
value (the empty string) is assigned with no checks.  A patch entry whose
value is `undefined` (`some none`) is skipped by the
`patch[typedKey] !== undefined` guard, so it changes nothing.  All other
defined patch fields overwrite the copy, `updatedAt` is refreshed, and
the merged task is persisted under its (unchanged) id. -/
def TaskRepo.update (m : TaskMap) (now : Nat) (fuel : Nat) (id : String)
    (patch : TaskPatch) : Except RepoError TaskMap :=
  match TaskRepo.find m id with
  | none => .error (.taskNotFound id)
  | some task =>
    let step1 : Except RepoError Task :=
      match patch.parentId with
      | none => .ok task
      | some none => .ok task
      | some (some newParentId) =>
        if some newParentId = task.parentId then .ok task
        else if newParentId ≠ "" then
          match TaskRepo.find m newParentId with
          | none => .error (.parentNotFound newParentId)
          | some _ =>
            match _checkForCycle m id (some newParentId) fuel with
            | .cycleDetected => .error (.cycleError id newParentId)
            | .fuelOut => .error .outOfFuel
            | .ok => .ok { task with parentId := some newParentId }
        else .ok { task with parentId := some newParentId }
    match step1 with
    | .error e => .error e
    | .ok t1 =>
      let t2 : Task :=
        { t1 with
          title := patch.title.getD t1.title
          summary := patch.summary.getD t1.summary
          description := patch.description.getD t1.description
          prompt := patch.prompt.getD t1.prompt
          role := patch.role.getD t1.role
          contexts := patch.contexts.getD t1.contexts
          status := patch.status.getD t1.status
          updatedAt := now }
      .ok (mapSet m t2.id t2)

/-- The method `TaskRepo.remove` (storage.ts lines 271-287). The task is fetched
through the PENDING-filtering `find`; when found it is hard-deleted from
the map (and, via `_removeTaskFromPersistence`, from the backing store);
the `cascade` option is accepted but never read. -/
def TaskRepo.remove (m : TaskMap) (id : String) (_cascade : Bool) :
    Except RepoError TaskMap :=
  match TaskRepo.find m id with
  | none => .error (.taskNotFound id)
  | some _ => .ok (mapDelete m id)

/-- The method `TaskRepo.list` (storage.ts lines 296-315). Without a `parentId`
argument it keeps the tasks whose `parentId` is falsy; with one it keeps
the tasks whose `parentId` strictly equals the given string; both are
then filtered to status PENDING. (The source also re-initializes the map
from storage when it is empty; along any history produced by the public
operations the map is empty exactly when the mirrored storage is, so the
reload is the identity and is not modelled.) -/
def TaskRepo.list (m : TaskMap) (parentId : Option String) : List Task :=
  let allTasks : List Task := m.map Prod.snd
  let filteredByParent : List Task :=
    match parentId with
    | none => allTasks.filter (fun t => strFalsy t.parentId)
    | some p => allTasks.filter (fun t => t.parentId == some p)
  filteredByParent.filter (fun t => t.status == TaskStatus.PENDING)

/-- A concrete task used in the example states. -/
def mkTask (id : String) (parentId : Option String) (status : TaskStatus) : Task :=
  { id := id, parentId := parentId, title := "t", summary := "s",
    description := "d", prompt := "p", role := "r", contexts := [],
    status := status, createdAt := 0, updatedAt := 0 }

def taskA : Task := mkTask "A" none TaskStatus.PENDING

def taskB : Task := mkTask "B" (some "A") TaskStatus.PENDING

def taskC : Task := mkTask "C" (some "B") TaskStatus.PENDING

/-- The chain A→B→C of the spec's example: C's parent is B, B's parent is A. -/
def chainRepo : TaskMap := [("A", taskA), ("B", taskB), ("C", taskC)]

def taskE : Task := mkTask "E" (some "") TaskStatus.PENDING

def taskD : Task := mkTask "D" none TaskStatus.DONE

def doneRepo : TaskMap := [("D", taskD)]

/-! ## Text patch engine (src/unnamed/part_000)

Text is modelled as `List Char` (a JS string is a sequence of code
units).  `String.prototype.split`/`join` and `includes` are re-implemented
below with their JS semantics. -/

/-- The function `chars s` gives the character sequence of a string literal. -/
def chars (s : String) : List Char := s.data

/-- Whether `pat` is a prefix of `l` (JS `startsWith`). -/
def listStartsWith : List Char → List Char → Bool
  | _, [] => true
  | [], _ :: _ => false
  | c :: s, p :: ps => c == p && listStartsWith s ps

/-- Splits off the first occurrence of `sep` in `s`:
`some (a, b)` with `s = a ++ sep ++ b` where `a` is the (occurrence-free)
text before the first occurrence; `none` when `sep` does not occur. -/
def splitFirst (sep : List Char) : List Char → Option (List Char × List Char)
  | [] => if listStartsWith [] sep then some ([], []) else none
  | c :: rest =>
    if listStartsWith (c :: rest) sep then some ([], (c :: rest).drop sep.length)
    else
      match splitFirst sep rest with
      | none => none
      | some (a, b) => some (c :: a, b)

/-- JS `content.includes(sub)`: the empty string is contained in every
string; otherwise containment of the first occurrence. -/
def jsIncludes (s sub : List Char) : Bool :=
  match sub with
  | [] => true
  | _ :: _ => (splitFirst sub s).isSome

/-- Fuelled worker for JS `split` with a non-empty separator; the fuel
`s.length + 1` used by `jsSplit` always suffices. -/
def jsSplitAux (sep : List Char) : Nat → List Char → List (List Char)
  | 0, s => [s]
  | fuel + 1, s =>
    match splitFirst sep s with
    | none => [s]
    | some (a, b) => a :: jsSplitAux sep fuel b

/-- JS `s.split(sep)` for a non-empty separator: the leftmost
non-overlapping occurrences of `sep` cut `s` into pieces. -/
def jsSplit (sep s : List Char) : List (List Char) :=
  jsSplitAux sep (s.length + 1) s

/-- JS `parts.join(sep)`. -/
def joinWith (sep : List Char) : List (List Char) → List Char
  | [] => []
  | [x] => x
  | x :: y :: xs => x ++ sep ++ joinWith sep (y :: xs)

/-- JS `content.split(fromS).join(toS)`: replaces every (leftmost,
non-overlapping) occurrence of `fromS` by `toS`.  For the empty pattern,
JS `split("")` yields the list of single characters, so the replacement
text is interleaved between them. -/
def jsReplaceAll (content fromS toS : List Char) : List Char :=
  if fromS = [] then joinWith toS (content.map (fun c => [c]))
  else joinWith toS (jsSplit fromS content)

/-- The file system: an association list from path to content. -/
abbrev FileSys := List (List Char × List Char)

def fsRead (fs : FileSys) (p : List Char) : Option (List Char) :=
  match fs.find? (fun e => e.1 == p) with
  | some e => some e.2
  | none => none

def fsWrite (fs : FileSys) (p : List Char) (c : List Char) : FileSys :=
  if fs.any (fun e => e.1 == p) then
    fs.map (fun e => if e.1 == p then (p, c) else e)
  else fs ++ [(p, c)]

/-- The patch engine's error classes.  `unableToModify` wraps I/O
failures, which cannot occur against the in-memory file system;
`contentNotFound` is declared in the source but never produced by the
append-on-miss variant of `findAndReplace`. -/
inductive PatchErr
  | fileNotExisted (path : List Char)
  | contentNotFound
  | unableToModify (path : List Char)
deriving DecidableEq, Repr

/-- The `from` field of a `FilePatch`: either a literal string or a
structural pattern (a JS `RegExp`).  A pattern is modelled by the
decomposition of the content around its first match — exactly the two
ways `findAndReplace` consumes a `RegExp`: `from.test(content)` is
"there is a match", and `content.replace(from, to)` substitutes the
first match. -/
inductive PatchFrom
  | lit (s : List Char)
  | pat (firstMatch : List Char → Option (List Char × List Char × List Char))

/-- A `FilePatch` as passed to `findAndReplace`. -/
structure FilePatch where
  file : List Char
  fromP : PatchFrom
  toS : List Char

/-- A `FilePatch` as returned by `findAndReplace`: the outcome flags and
optional error recorded on the patch. -/
structure PatchResult where
  file : List Char
  toS : List Char
  changed : Bool
  appended : Bool
  err : Option PatchErr
deriving DecidableEq, Repr

/-- The trailing line break added before appending: one `\n` exactly when
the content is non-empty and does not already end with `\n`. -/
def padNL (content : List Char) : List Char :=
  if content ≠ [] ∧ content.getLast? ≠ some '\n' then content ++ ['\n'] else content

/-- One iteration of `findAndReplace`'s loop (part_000 lines 80-151):
missing file records `FileNotExistedError` and leaves the file system
alone; a `from` that does not occur appends `to` (after `padNL`) and
reports `appended=true, changed=true`; a `from` that occurs is replaced
(every occurrence for a literal, the first match for a pattern) and the
file is rewritten exactly when the result differs from the original. -/
def applyOnePatch (fs : FileSys) (p : FilePatch) : FileSys × PatchResult :=
  match fsRead fs p.file with
  | none => (fs, ⟨p.file, p.toS, false, false, some (.fileNotExisted p.file)⟩)
  | some content =>
    match p.fromP with
    | .lit s =>
      if jsIncludes content s then
        let newC := jsReplaceAll content s p.toS
        if newC = content then (fs, ⟨p.file, p.toS, false, false, none⟩)
        else (fsWrite fs p.file newC, ⟨p.file, p.toS, true, false, none⟩)
      else
        (fsWrite fs p.file (padNL content ++ p.toS), ⟨p.file, p.toS, true, true, none⟩)
    | .pat fm =>
      match fm content with
      | none =>
        (fsWrite fs p.file (padNL content ++ p.toS), ⟨p.file, p.toS, true, true, none⟩)
      | some (pre, _mid, post) =>
        let newC := pre ++ p.toS ++ post
        if newC = content then (fs, ⟨p.file, p.toS, false, false, none⟩)
        else (fsWrite fs p.file newC, ⟨p.file, p.toS, true, false, none⟩)

/-- The function `findAndReplace` (part_000 lines 77-154): sequential, independent
processing of the patch list; one patch's failure does not abort the
remaining patches. -/
def findAndReplace (fs : FileSys) : List FilePatch → FileSys × List PatchResult
  | [] => (fs, [])
  | p :: rest =>
    let step := applyOnePatch fs p
    let next := findAndReplace step.1 rest
    (next.1, step.2 :: next.2)

/-! ## Markdown bullet-list store (src/unnamed/part_001) -/

/-- Whitespace as matched by the source's `/^(\s*)/`, `trim()` and
`\S`: space, tab, newline, carriage return (the JS classes also include
rarer code points that never occur in the modelled content). -/
def isWS (c : Char) : Bool :=
  c == ' ' || c == '\t' || c == '\n' || c == '\r'

/-- JS `line.trim() === ""`: every character is whitespace. -/
def isBlank (l : List Char) : Bool := l.all isWS

/-- The leading-whitespace match `/^(\s*)/`. -/
def leadingWS (l : List Char) : List Char := l.takeWhile isWS

/-- The task record the Markdown store works with
(the second `Task` interface in src/type/task.ts). -/
structure MdTask where
  id : List Char
  title : List Char
  is_completed : Bool
  parentId : Option (List Char)
deriving DecidableEq, Repr

/-- The capture of `/id:(\S+)/`: the first position where `id:` is
followed by at least one non-whitespace character; the capture is the
maximal non-whitespace run after `id:`. -/
def idCapture : List Char → Option (List Char)
  | [] => none
  | c :: rest =>
    if listStartsWith (c :: rest) (chars "id:") then
      let cap := ((c :: rest).drop 3).takeWhile (fun ch => !(isWS ch))
      if cap = [] then idCapture rest else some cap
    else idCapture rest

/-- The capture of `/\[(.*?)\]/`: everything between the first `[` and
the first `]` after it (the lazy quantifier stops at the first `]`; if no
`]` follows any `[`, there is no match). -/
def titleCapture (l : List Char) : Option (List Char) :=
  match l.dropWhile (fun c => c != '[') with
  | [] => none
  | _ :: after =>
    let cap := after.takeWhile (fun c => c != ']')
    if cap.length < after.length then some cap else none

/-- JS `Array.prototype.splice(n, 0, a)`. -/
def insertAt (n : Nat) (a : List Char) : List (List Char) → List (List Char)
  | l =>
    match n, l with
    | 0, l => a :: l
    | _ + 1, [] => [a]
    | n + 1, x :: xs => x :: insertAt n a xs

/-- The bullet line written for a new task:
`- [ ] [<title>](./content/<id>.md) id:<id>`. -/
def mdTaskEntry (taskId title : List Char) : List Char :=
  chars "- [ ] [" ++ title ++ chars "](./content/" ++ taskId ++ chars ".md) id:" ++ taskId

/-- The method `MarkdownStorage.createTask` (part_001 lines 207-299), for a task
with the given id, title and `parentId`.  It writes an empty content
file, splits the current `tasks.md` into lines (keeping exactly-empty
lines, dropping whitespace-only ones, and normalising a single empty
line to no lines), builds the bullet entry, inserts it right after the
first line containing `id:<parentId>` with the parent's indentation plus
one tab (appending unindented when there is no parent or no such line),
and persists the new content through the patch engine by replacing the
entire old content with the entire new content.  An engine error on that
patch is re-thrown. -/
def mdCreateTask (fs : FileSys) (tasksFilePath contentDirPath : String)
    (taskId title : List Char) (parentId : Option (List Char)) :
    Except PatchErr FileSys :=
  let contentFile := chars contentDirPath ++ ['/'] ++ taskId ++ chars ".md"
  let fs1 := fsWrite fs contentFile []
  let tasksPath := chars tasksFilePath
  let original := (fsRead fs1 tasksPath).getD []
  let lines0 := jsSplit ['\n'] original
  let lines1 := lines0.filter (fun l => !(isBlank l) || l == [])
  let lines2 := if lines1 = [[]] then [] else lines1
  let entry := mdTaskEntry taskId title
  let newLines :=
    match parentId with
    | some p =>
      if p ≠ [] then
        match lines2.findIdx? (fun l => jsIncludes l (chars "id:" ++ p)) with
        | some i =>
          let parentLine := (lines2.get? i).getD []
          let subIndent := leadingWS parentLine ++ ['\t']
          insertAt (i + 1) (subIndent ++ entry) lines2
        | none => lines2 ++ [entry]
      else lines2 ++ [entry]
    | none => lines2 ++ [entry]
  let newContent := joinWith ['\n'] newLines
  if original ≠ newContent then
    let r := findAndReplace fs1 [⟨tasksPath, .lit original, newContent⟩]
    match r.2 with
    | res :: _ =>
      match res.err with
      | some e => .error e
      | none => .ok r.1
    | [] => .ok r.1
  else .ok fs1

/-- The forward scan of `MarkdownStorage.getTasks` over the lines after
the parent's line: a line indented exactly one tab deeper than the
parent is parsed (and skipped when the id or title capture fails), a
line indented at most as much as the parent ends the scan, and a more
deeply indented line is passed over. -/
def collectSubtasks (subIndent parentIndent p : List Char) :
    List (List Char) → List MdTask
  | [] => []
  | line :: rest =>
    let ind := leadingWS line
    if ind = subIndent then
      match idCapture line, titleCapture line with
      | some i, some t =>
        { id := i, title := t, is_completed := jsIncludes line (chars "- [x]"),
          parentId := some p } :: collectSubtasks subIndent parentIndent p rest
      | _, _ => collectSubtasks subIndent parentIndent p rest
    else if ind.length ≤ parentIndent.length then []
    else collectSubtasks subIndent parentIndent p rest

/-- The top-level branch of `MarkdownStorage.getTasks`: lines with no tab
in their indentation that start with a bullet marker. -/
def topLevelTasks : List (List Char) → List MdTask
  | [] => []
  | line :: rest =>
    let ind := leadingWS line
    if !(ind.contains '\t') &&
        (listStartsWith line (chars "- [ ]") || listStartsWith line (chars "- [x]")) then
      match idCapture line, titleCapture line with
      | some i, some t =>
        { id := i, title := t, is_completed := jsIncludes line (chars "- [x]"),
          parentId := none } :: topLevelTasks rest
      | _, _ => topLevelTasks rest
    else topLevelTasks rest

/-- The method `MarkdownStorage.getTasks` (part_001 lines 362-441) applied to the
content of `tasks.md`.  Blank lines are dropped; a truthy `parentId`
selects the direct children of the first line containing `id:<parentId>`
by indentation comparison; otherwise the top-level lines are parsed. -/
def mdGetTasks (content : List Char) (parentId : Option (List Char)) : List MdTask :=
  let lines := (jsSplit ['\n'] content).filter (fun l => !(isBlank l))
  match parentId with
  | some p =>
    if p ≠ [] then
      match lines.findIdx? (fun l => jsIncludes l (chars "id:" ++ p)) with
      | some i =>
        let parentLine := (lines.get? i).getD []
        let parentIndent := leadingWS parentLine
        collectSubtasks (parentIndent ++ ['\t']) parentIndent p (lines.drop (i + 1))
      | none => []
    else topLevelTasks lines
  | none => topLevelTasks lines

/-! ## TOML snapshot store (src/storage/storage.ts, `TomlFileStorage`) -/

/-- Storage-level errors. -/
inductive StorageErr
  | notInit
  | storageTaskNotFound (id : String)
deriving DecidableEq, Repr

/-- The state of a `TomlFileStorage`: the configured file path (set by
`init`), the in-memory task list, and the records encoded in the backing
file (`fileTasks` stands for the TOML document `tasks = [...]`; the TOML
serialisation itself is an external library and is modelled by the list
of records it encodes). -/
structure TomlFileStorage where
  filePath : Option String
  tasks : List Task
  fileTasks : List Task
deriving DecidableEq, Repr

/-- The method `TomlFileStorage.getTasks` (storage.ts lines 761-786): requires
`init`; a truthy `parentId` filters by strict equality, a falsy one (the
argument being absent or the empty string) returns every task.  The
deep copy through JSON round-tripping reconstructs the timestamps and is
the identity on the modelled records. -/
def TomlFileStorage.getTasks (st : TomlFileStorage) (parentId : Option String) :
    Except StorageErr (List Task) :=
  match st.filePath with
  | none => .error .notInit
  | some _ =>
    match parentId with
    | some p =>
      if p ≠ "" then .ok (st.tasks.filter (fun t => t.parentId == some p))
      else .ok st.tasks
    | none => .ok st.tasks

/-- The method `TomlFileStorage.deleteTask` (storage.ts lines 854-870): requires
`init`; filters out every record with the given id; when nothing was
removed it returns without touching the file (idempotent success),
otherwise it rewrites the whole file with the remaining records. -/
def TomlFileStorage.deleteTask (st : TomlFileStorage) (id : String) :
    Except StorageErr TomlFileStorage :=
  match st.filePath with
  | none => .error .notInit
  | some _ =>
    let newTasks := st.tasks.filter (fun t => !(t.id == id))
    if newTasks.length = st.tasks.length then .ok st
    else .ok { st with tasks := newTasks, fileTasks := newTasks }

/-! ## Concrete example states used by the claim theorems -/

/-- A two-task state with B a child of A. -/
def detachRepo : TaskMap := [("A", taskA), ("B", taskB)]

/-- A bullet-list file holding a single parent line. -/
def mdFs0 : FileSys := [(chars "tasks.md", chars "- [ ] [Parent](./content/p.md) id:p")]

/-- The bullet-list content after inserting a child of `p`. -/
def mdContent1 : List Char :=
  chars "- [ ] [Parent](./content/p.md) id:p\n\t- [ ] [Child](./content/c.md) id:c"

/-- An initialized TOML store holding two tasks, one of them with a
non-empty `parentId`. -/
def tomlSt : TomlFileStorage :=
  { filePath := some "tasks.toml",
    tasks := [mkTask "u" none TaskStatus.PENDING, mkTask "v" (some "x") TaskStatus.PENDING],
    fileTasks := [mkTask "u" none TaskStatus.PENDING, mkTask "v" (some "x") TaskStatus.PENDING] }

/-- An example file system for the patch-engine witnesses. -/
def patchFs : FileSys := [(chars "a.txt", chars "hello"), (chars "b.txt", chars "abcabc")]

/-! ## Lemmas about the JS string primitives -/

theorem listStartsWith_nil_iff (pat : List Char) :
    listStartsWith [] pat = true ↔ pat = [] := by
  cases pat <;> simp [listStartsWith]

theorem listStartsWith_append (pat : List Char) :
    ∀ (l ext : List Char), listStartsWith l pat = true →
      listStartsWith (l ++ ext) pat = true := by
  induction pat with
  | nil => intro l ext _; cases l ++ ext <;> simp [listStartsWith]
  | cons p ps ih =>
    intro l ext h
    cases l with
    | nil => simp [listStartsWith] at h
    | cons c s =>
      simp only [listStartsWith, Bool.and_eq_true] at h ⊢
      exact ⟨h.1, ih s ext h.2⟩

theorem listStartsWith_decomp (pat : List Char) :
    ∀ (l : List Char), listStartsWith l pat = true →
      l = pat ++ l.drop pat.length := by
  induction pat with
  | nil => intro l _; simp
  | cons p ps ih =>
    intro l h
    cases l with
    | nil => simp [listStartsWith] at h
    | cons c s =>
      simp only [listStartsWith, Bool.and_eq_true, beq_iff_eq] at h
      obtain ⟨rfl, hs⟩ := h
      simpa using ih s hs

theorem splitFirst_sound (sep : List Char) :
    ∀ (s a b : List Char), splitFirst sep s = some (a, b) → s = a ++ sep ++ b := by
  intro s
  induction s with
  | nil =>
    intro a b h
    simp only [splitFirst] at h
    split at h
    · next hsw =>
      have hsep : sep = [] := (listStartsWith_nil_iff sep).mp hsw
      cases h
      simp [hsep]
    · cases h
  | cons c rest ih =>
    intro a b h
    simp only [splitFirst] at h
    split at h
    · next hsw =>
      cases h
      simpa using listStartsWith_decomp sep (c :: rest) hsw
    · next hsw =>
      cases hrec : splitFirst sep rest with
      | none => rw [hrec] at h; cases h
      | some ab =>
        obtain ⟨a', b'⟩ := ab
        rw [hrec] at h
        simp only [Option.some.injEq, Prod.mk.injEq] at h
        obtain ⟨rfl, rfl⟩ := h
        have hres := ih a' b' hrec
        simp [hres]

theorem splitFirst_shrinks (sep : List Char) (hsep : sep ≠ [])
    (s a b : List Char) (h : splitFirst sep s = some (a, b)) :
    b.length < s.length := by
  have hdec := splitFirst_sound sep s a b h
  have hlen : s.length = a.length + sep.length + b.length := by
    rw [hdec]; simp [List.length_append]; omega
  have hpos : 0 < sep.length := List.length_pos.mpr hsep
  omega

theorem splitFirst_none_left (sep : List Char) (hsep : sep ≠ []) :
    ∀ (s a b : List Char), splitFirst sep s = some (a, b) →
      splitFirst sep a = none := by
  intro s
  induction s with
  | nil =>
    intro a b h
    simp only [splitFirst] at h
    split at h
    · next hsw => exact absurd ((listStartsWith_nil_iff sep).mp hsw) hsep
    · cases h
  | cons c rest ih =>
    intro a b h
    simp only [splitFirst] at h
    split at h
    · next hsw =>
      cases h
      have : listStartsWith [] sep = false := by
        cases hsw2 : listStartsWith [] sep
        · rfl
        · exact absurd ((listStartsWith_nil_iff sep).mp hsw2) hsep
      simp [splitFirst, this]
    · next hsw =>
      cases hrec : splitFirst sep rest with
      | none => rw [hrec] at h; cases h
      | some ab =>
        obtain ⟨a', b'⟩ := ab
        rw [hrec] at h
        simp only [Option.some.injEq, Prod.mk.injEq] at h
        obtain ⟨rfl, rfl⟩ := h
        have hleft : splitFirst sep a' = none := ih a' b' hrec
        have hdec := splitFirst_sound sep rest a' b' hrec
        have hnostart : listStartsWith (c :: a') sep = false := by
          cases hsw2 : listStartsWith (c :: a') sep
          · rfl
          · exfalso
            have : listStartsWith ((c :: a') ++ (sep ++ b')) sep = true :=
              listStartsWith_append sep (c :: a') (sep ++ b') hsw2
            have heq : (c :: a') ++ (sep ++ b') = c :: rest := by simp [hdec]
            rw [heq] at this
            simp [this] at hsw
        simp [splitFirst, hnostart, hleft]

theorem jsSplitAux_ne_nil (sep : List Char) (fuel : Nat) (s : List Char) :
    jsSplitAux sep fuel s ≠ [] := by
  cases fuel with
  | zero => simp [jsSplitAux]
  | succ fuel =>
    simp only [jsSplitAux]
    cases splitFirst sep s with
    | none => simp
    | some ab => cases ab; simp

theorem joinWith_cons (sep x : List Char) (l : List (List Char)) (h : l ≠ []) :
    joinWith sep (x :: l) = x ++ sep ++ joinWith sep l := by
  cases l with
  | nil => exact absurd rfl h
  | cons y ys => rfl

theorem jsSplitAux_join (sep : List Char) (hsep : sep ≠ []) :
    ∀ (fuel : Nat) (s : List Char), s.length < fuel →
      joinWith sep (jsSplitAux sep fuel s) = s := by
  intro fuel
  induction fuel with
  | zero => intro s h; omega
  | succ fuel ih =>
    intro s hlen
    simp only [jsSplitAux]
    cases hsf : splitFirst sep s with
    | none => simp [joinWith]
    | some ab =>
      obtain ⟨a, b⟩ := ab
      have hb : b.length < fuel := by
        have := splitFirst_shrinks sep hsep s a b hsf
        omega
      rw [joinWith_cons sep a _ (jsSplitAux_ne_nil sep fuel b), ih b hb]
      exact (splitFirst_sound sep s a b hsf).symm

theorem jsSplit_join (sep : List Char) (hsep : sep ≠ []) (s : List Char) :
    joinWith sep (jsSplit sep s) = s :=
  jsSplitAux_join sep hsep (s.length + 1) s (Nat.lt_succ_self _)

theorem jsSplitAux_parts (sep : List Char) (hsep : sep ≠ []) :
    ∀ (fuel : Nat) (s : List Char), s.length < fuel →
      ∀ part ∈ jsSplitAux sep fuel s, splitFirst sep part = none := by
  intro fuel
  induction fuel with
  | zero => intro s h; omega
  | succ fuel ih =>
    intro s hlen part hpart
    simp only [jsSplitAux] at hpart
    cases hsf : splitFirst sep s with
    | none =>
      rw [hsf] at hpart
      simp at hpart
      rw [hpart]
      exact hsf
    | some ab =>
      obtain ⟨a, b⟩ := ab
      rw [hsf] at hpart
      simp only [List.mem_cons] at hpart
      cases hpart with
      | inl h => rw [h]; exact splitFirst_none_left sep hsep s a b hsf
      | inr h =>
        have hb : b.length < fuel := by
          have := splitFirst_shrinks sep hsep s a b hsf
          omega
        exact ih b hb part h

theorem jsSplit_parts (sep : List Char) (hsep : sep ≠ []) (s : List Char) :
    ∀ part ∈ jsSplit sep s, splitFirst sep part = none :=
  jsSplitAux_parts sep hsep (s.length + 1) s (Nat.lt_succ_self _)

theorem joinWith_singletons : ∀ l : List Char,
    joinWith [] (l.map (fun c => [c])) = l := by
  intro l
  induction l with
  | nil => rfl
  | cons c l ih =>
    cases l with
    | nil => rfl
    | cons d l' =>
      have hne : (d :: l').map (fun c => [c]) ≠ [] := by simp
      calc joinWith [] ((c :: d :: l').map (fun c => [c]))
          = [c] ++ [] ++ joinWith [] ((d :: l').map (fun c => [c])) :=
            joinWith_cons [] [c] _ hne
        _ = c :: (d :: l') := by rw [ih]; simp

theorem jsReplaceAll_self (content s : List Char) :
    jsReplaceAll content s s = content := by
  unfold jsReplaceAll
  split
  · next hs => subst hs; exact joinWith_singletons content
  · next hs => exact jsSplit_join s hs content

/-! ## Lemmas about the ancestor walk and the repository -/

theorem checkAux_cycle_iff (m : TaskMap) (taskId : String) :
    ∀ (fuel : Nat) (cur : Option String),
      (checkAux m taskId cur fuel = CycleResult.cycleDetected ↔
        taskId ∈ ancestorChainSpec m cur fuel) := by
  intro fuel
  induction fuel with
  | zero =>
    intro cur
    cases cur with
    | none => simp [checkAux, ancestorChainSpec]
    | some c =>
      by_cases hc : c = "" <;> simp [checkAux, ancestorChainSpec, hc]
  | succ fuel ih =>
    intro cur
    cases cur with
    | none => simp [checkAux, ancestorChainSpec]
    | some c =>
      by_cases hc : c = ""
      · simp [checkAux, ancestorChainSpec, hc]
      · by_cases hid : c = taskId
        · simp [checkAux, ancestorChainSpec, hc, hid]
        · cases hget : mapGet m c with
          | none =>
            simp [checkAux, ancestorChainSpec, hc, hid, hget, Ne.symm hid]
          | some t =>
            simp [checkAux, ancestorChainSpec, hc, hid, hget, ih t.parentId,
              Ne.symm hid]

theorem checkAux_ok_iff (m : TaskMap) (taskId : String) :
    ∀ (fuel : Nat) (cur : Option String),
      (checkAux m taskId cur fuel = CycleResult.ok ↔
        (chainTerminatesSpec m cur fuel = true ∧
          taskId ∉ ancestorChainSpec m cur fuel)) := by
  intro fuel
  induction fuel with
  | zero =>
    intro cur
    cases cur with
    | none => simp [checkAux, ancestorChainSpec, chainTerminatesSpec]
    | some c =>
      by_cases hc : c = "" <;>
        simp [checkAux, ancestorChainSpec, chainTerminatesSpec, hc]
  | succ fuel ih =>
    intro cur
    cases cur with
    | none => simp [checkAux, ancestorChainSpec, chainTerminatesSpec]
    | some c =>
      by_cases hc : c = ""
      · simp [checkAux, ancestorChainSpec, chainTerminatesSpec, hc]
      · by_cases hid : c = taskId
        · subst hid
          simp [checkAux, ancestorChainSpec, chainTerminatesSpec, hc]
        · cases hget : mapGet m c with
          | none =>
            simp [checkAux, ancestorChainSpec, chainTerminatesSpec, hc, hid, hget,
              Ne.symm hid]
          | some t =>
            simp only [checkAux, ancestorChainSpec, chainTerminatesSpec, if_neg hc,
              hget, List.mem_cons]
            rw [if_neg hid, ih t.parentId]
            constructor
            · intro h
              refine ⟨h.1, fun hmem => ?_⟩
              cases hmem with
              | inl hmem => exact hid hmem.symm
              | inr hmem => exact h.2 hmem
            · intro h
              exact ⟨h.1, fun hmem => h.2 (Or.inr hmem)⟩

theorem length_filter_eq_iff {α : Type} (p : α → Bool) :
    ∀ l : List α, ((l.filter p).length = l.length ↔ ∀ x ∈ l, p x = true) := by
  intro l
  induction l with
  | nil => simp
  | cons x l ih =>
    cases hp : p x with
    | true =>
      simp [List.filter_cons, hp, ih]
    | false =>
      have hle := List.length_filter_le p l
      constructor
      · intro h
        exfalso
        rw [List.filter_cons, hp] at h
        simp only [if_neg (by simp : ¬(false = true)), List.length_cons] at h
        omega
      · intro h
        exfalso
        have hx := h x (List.mem_cons_self x l)
        rw [hp] at hx
        exact Bool.false_ne_true hx

theorem mapGet_mapDelete_self (m : TaskMap) (id : String) :
    mapGet (mapDelete m id) id = none := by
  induction m with
  | nil => rfl
  | cons e m ih =>
    by_cases h : e.1 = id
    · simpa [mapDelete, List.filter_cons, h] using ih
    · simpa [mapDelete, mapGet, List.filter_cons, List.find?, h] using ih

theorem strFalsy_iff (o : Option String) :
    strFalsy o = true ↔ (o = none ∨ o = some "") := by
  cases o with
  | none => simp [strFalsy]
  | some s => simp [strFalsy]

theorem find_iff (m : TaskMap) (id : String) (t : Task) :
    TaskRepo.find m id = some t ↔
      (mapGet m id = some t ∧ t.status = TaskStatus.PENDING) := by
  unfold TaskRepo.find
  cases hget : mapGet m id with
  | none => simp
  | some u =>
    by_cases hs : u.status = TaskStatus.PENDING
    · simp only [hs, if_pos, Option.some.injEq]
      constructor
      · intro h; subst h; exact ⟨rfl, hs⟩
      · intro h; cases h.1; rfl
    · simp only [if_neg hs, Option.some.injEq]
      constructor
      · intro h; cases h
      · intro h; cases h.1; exact absurd h.2 hs

/-! ## Claim theorems -/

/-- C1: checking whether `potentialParentId` may become the parent of
`taskId` walks the ancestor chain starting at `potentialParentId`; it
reports a cycle exactly when some ancestor in that chain (including
`potentialParentId` itself) equals `taskId`, and it succeeds exactly
when the chain ends (falsy `parentId` or missing ancestor) without
meeting `taskId`.  In the chain A→B→C (C's parent is B, B's parent is
A), `update(A, {parentId: B})`, `update(A, {parentId: C})` and
`update(A, {parentId: A})` all fail with `CycleError`. -/
theorem C1_cycle_detection :
    (∀ (m : TaskMap) (taskId : String) (pid : Option String) (fuel : Nat),
      (_checkForCycle m taskId pid fuel = CycleResult.cycleDetected ↔
        taskId ∈ ancestorChainSpec m pid fuel) ∧
      (_checkForCycle m taskId pid fuel = CycleResult.ok ↔
        (chainTerminatesSpec m pid fuel = true ∧
          taskId ∉ ancestorChainSpec m pid fuel))) ∧
    TaskRepo.update chainRepo 9 9 "A" { parentId := some (some "B") } =
      Except.error (RepoError.cycleError "A" "B") ∧
    TaskRepo.update chainRepo 9 9 "A" { parentId := some (some "C") } =
      Except.error (RepoError.cycleError "A" "C") ∧
    TaskRepo.update chainRepo 9 9 "A" { parentId := some (some "A") } =
      Except.error (RepoError.cycleError "A" "A") := by
  refine ⟨?_, by rfl, by rfl, by rfl⟩
  intro m taskId pid fuel
  unfold _checkForCycle
  by_cases hf : strFalsy pid = true
  · have hchain : ancestorChainSpec m pid fuel = [] := by
      rcases (strFalsy_iff pid).mp hf with rfl | rfl
      · simp [ancestorChainSpec]
      · cases fuel <;> simp [ancestorChainSpec]
    have hterm : chainTerminatesSpec m pid fuel = true := by
      rcases (strFalsy_iff pid).mp hf with rfl | rfl
      · simp [chainTerminatesSpec]
      · cases fuel <;> simp [chainTerminatesSpec]
    simp [hf, hchain, hterm]
  · rw [if_neg hf]
    exact ⟨checkAux_cycle_iff m taskId fuel pid, checkAux_ok_iff m taskId fuel pid⟩

/-- C2 counterexample: the claim states that `list()` returns exactly the
PENDING tasks whose `parentId` is unset; but a PENDING task whose
`parentId` is the empty string (reachable, e.g., through
`create({..., parentId: ""})`, whose truthiness check skips the parent
validation while the spread still copies the field) is returned by
`list()` even though its `parentId` is not unset — the source filters
with JS truthiness (`!task.parentId`), not with "is undefined". -/
theorem C2_list_unset_counterexample :
    taskE ∈ TaskRepo.list [("E", taskE)] none ∧ taskE.parentId ≠ none := by
  constructor
  · simp [TaskRepo.list, taskE, mkTask, strFalsy]
  · simp [taskE, mkTask]

/-- C2 (amended): `find(id)` returns the task exactly when present with
status PENDING; `list()` returns exactly the PENDING tasks whose
`parentId` is falsy (unset or the empty string); `list(X)` returns
exactly the PENDING tasks whose `parentId` equals `X`.  DONE and DELETED
tasks are never returned. -/
theorem C2_soft_visibility :
    (∀ (m : TaskMap) (id : String) (t : Task),
      (TaskRepo.find m id = some t ↔
        (mapGet m id = some t ∧ t.status = TaskStatus.PENDING))) ∧
    (∀ (m : TaskMap) (t : Task),
      (t ∈ TaskRepo.list m none ↔
        (t ∈ m.map Prod.snd ∧ (t.parentId = none ∨ t.parentId = some "") ∧
          t.status = TaskStatus.PENDING))) ∧
    (∀ (m : TaskMap) (t : Task) (x : String),
      (t ∈ TaskRepo.list m (some x) ↔
        (t ∈ m.map Prod.snd ∧ t.parentId = some x ∧
          t.status = TaskStatus.PENDING))) := by
  refine ⟨find_iff, ?_, ?_⟩
  · intro m t
    simp [TaskRepo.list, List.mem_filter, strFalsy_iff, and_assoc]
    exact fun _ _ => and_comm
  · intro m t x
    simp [TaskRepo.list, List.mem_filter, and_assoc]
    exact fun _ _ => and_comm

/-- C3 code evaluation: the spec (and the source's own comment and test
suite) say that clearing `parentId` (patching it to `undefined`)
detaches the task; but the source guards every patch entry with
`patch[typedKey] !== undefined`, so a `parentId: undefined` entry is
skipped before it reaches the detach branch.  Updating B (a child of A)
with `{parentId: undefined}` succeeds yet leaves `B.parentId = "A"`:
only `updatedAt` changes. -/
theorem C3_detach_is_skipped :
    TaskRepo.update detachRepo 5 10 "B" { parentId := some none } =
      Except.ok [("A", taskA), ("B", { taskB with updatedAt := 5 })] ∧
    ({ taskB with updatedAt := 5 } : Task).parentId = some "A" :=
  ⟨rfl, rfl⟩

/-- C4 counterexample: the claim states that `remove` succeeds on every
task whose status is PENDING or DONE; but `remove` looks the task up
through the soft-visibility `find`, so a DONE task is reported as not
found and is not removed. -/
theorem C4_remove_done_counterexample :
    mapGet doneRepo "D" = some taskD ∧ taskD.status = TaskStatus.DONE ∧
    TaskRepo.remove doneRepo "D" false =
      Except.error (RepoError.taskNotFound "D") :=
  ⟨rfl, rfl, rfl⟩

/-- C4 (amended): `remove(id, options)` succeeds exactly on the ids of
PENDING tasks (found through the soft-visibility `find`); it then
performs an unconditional hard delete from the map, with the same result
for every value of the `cascade` flag, and `find(id)` afterwards returns
not found; for every other id (absent, DONE or DELETED) it fails with a
not-found error and the state is unchanged. -/
theorem C4_remove_semantics (m : TaskMap) (id : String) (cascade : Bool) :
    (∀ cascade2 : Bool,
      TaskRepo.remove m id cascade = TaskRepo.remove m id cascade2) ∧
    (∀ t : Task, mapGet m id = some t → t.status = TaskStatus.PENDING →
      (TaskRepo.remove m id cascade = Except.ok (mapDelete m id) ∧
        TaskRepo.find (mapDelete m id) id = none)) ∧
    (TaskRepo.find m id = none →
      TaskRepo.remove m id cascade = Except.error (RepoError.taskNotFound id)) := by
  refine ⟨fun _ => rfl, ?_, ?_⟩
  · intro t hget hst
    have hfind : TaskRepo.find m id = some t := (find_iff m id t).mpr ⟨hget, hst⟩
    constructor
    · unfold TaskRepo.remove
      rw [hfind]
    · unfold TaskRepo.find
      rw [mapGet_mapDelete_self]
  · intro hfind
    unfold TaskRepo.remove
    rw [hfind]

/-- C4 witness: removing the PENDING task A hard-deletes it and `find`
then misses it; removing the DONE task D fails with not-found. -/
theorem C4_remove_semantics_witness :
    (TaskRepo.remove chainRepo "A" true = Except.ok (mapDelete chainRepo "A") ∧
      TaskRepo.find (mapDelete chainRepo "A") "A" = none) ∧
    TaskRepo.remove doneRepo "D" true =
      Except.error (RepoError.taskNotFound "D") :=
  ⟨(C4_remove_semantics chainRepo "A" true).2.1 taskA rfl rfl,
   (C4_remove_semantics doneRepo "D" true).2.2 rfl⟩

/-- C10: when the freshly generated id differs from the id of every task
in the map and from every ancestor id visited by the walk starting at
`dto.parentId`, the cycle check run by `create` cannot detect a cycle,
so `create` can only fail with `MissingRequiredFieldError`,
`ParentNotFoundError` (or fail to terminate, which the fuelled model
reports as `outOfFuel`); `CycleError` can only arise from `update`. -/
theorem C10_create_no_cycle (m : TaskMap) (genId : String) (now fuel : Nat)
    (dto : CreateTaskDto)
    (_hkeys : ∀ e ∈ m, genId ≠ e.1)
    (hchain : genId ∉ ancestorChainSpec m dto.parentId fuel) :
    (∀ a b, TaskRepo.create m genId now fuel dto ≠
        Except.error (RepoError.cycleError a b)) ∧
    (∀ e, TaskRepo.create m genId now fuel dto = Except.error e →
      ((∃ f, e = RepoError.missingRequiredField f) ∨
        (∃ p, e = RepoError.parentNotFound p) ∨ e = RepoError.outOfFuel)) := by
  unfold TaskRepo.create
  split_ifs with h1 h2 h3 h4 h5
  · exact ⟨fun a b h => by simp at h, fun e h => by
      simp only [Except.error.injEq] at h; exact Or.inl ⟨"title", h.symm⟩⟩
  · exact ⟨fun a b h => by simp at h, fun e h => by
      simp only [Except.error.injEq] at h; exact Or.inl ⟨"summary", h.symm⟩⟩
  · exact ⟨fun a b h => by simp at h, fun e h => by
      simp only [Except.error.injEq] at h; exact Or.inl ⟨"description", h.symm⟩⟩
  · exact ⟨fun a b h => by simp at h, fun e h => by
      simp only [Except.error.injEq] at h; exact Or.inl ⟨"prompt", h.symm⟩⟩
  · exact ⟨fun a b h => by simp at h, fun e h => by
      simp only [Except.error.injEq] at h; exact Or.inl ⟨"role", h.symm⟩⟩
  · cases hp : dto.parentId with
    | none => exact ⟨fun a b h => by simp [hp] at h, fun e h => by simp [hp] at h⟩
    | some p =>
      by_cases hpe : p = ""
      · exact ⟨fun a b h => by simp [hp, hpe] at h,
          fun e h => by simp [hp, hpe] at h⟩
      · cases hfind : TaskRepo.find m p with
        | none =>
          refine ⟨fun a b h => ?_, fun e h => ?_⟩
          · simp [hp, hpe, hfind] at h
          · simp [hp, hpe, hfind] at h
            exact Or.inr (Or.inl ⟨p, h.symm⟩)
        | some parent =>
          cases hcyc : _checkForCycle m genId (some p) fuel with
          | cycleDetected =>
            exfalso
            have hca : checkAux m genId (some p) fuel =
                CycleResult.cycleDetected := by
              unfold _checkForCycle at hcyc
              rw [if_neg (by simp [strFalsy, hpe])] at hcyc
              exact hcyc
            have hmem : genId ∈ ancestorChainSpec m (some p) fuel :=
              (checkAux_cycle_iff m genId fuel (some p)).mp hca
            rw [hp] at hchain
            exact hchain hmem
          | fuelOut =>
            refine ⟨fun a b h => ?_, fun e h => ?_⟩
            · simp [hp, hpe, hfind, hcyc] at h
            · simp [hp, hpe, hfind, hcyc] at h
              exact Or.inr (Or.inr h.symm)
          | ok =>
            refine ⟨fun a b h => ?_, fun e h => ?_⟩
            · simp [hp, hpe, hfind, hcyc] at h
            · simp [hp, hpe, hfind, hcyc] at h

/-- C10 witness: a concrete create under an existing parent cannot fail
with `CycleError`. -/
theorem C10_create_no_cycle_witness :
    TaskRepo.create chainRepo "newid" 7 10
        { title := "t", summary := "s", description := "d", prompt := "p",
          role := "r", parentId := some "A" } ≠
      Except.error (RepoError.cycleError "newid" "A") :=
  (C10_create_no_cycle chainRepo "newid" 7 10
      { title := "t", summary := "s", description := "d", prompt := "p",
        role := "r", parentId := some "A" }
      (by decide) (by decide)).1 "newid" "A"

/-- C8: in the initialized snapshot store, `deleteTask(id)` with an id
matching no stored task resolves successfully and leaves the state (and
the backing file) unchanged; with a matching id it removes exactly the
matching record(s) — every remaining task has a different id, every
other task is retained — and rewrites the file with the remaining
records. -/
theorem C8_delete_idempotent (st : TomlFileStorage) (p : String) (id : String)
    (hinit : st.filePath = some p) :
    ((∀ t ∈ st.tasks, t.id ≠ id) →
      TomlFileStorage.deleteTask st id = Except.ok st) ∧
    ((∃ t ∈ st.tasks, t.id = id) →
      (TomlFileStorage.deleteTask st id =
        Except.ok
          { st with tasks := st.tasks.filter (fun t => !(t.id == id)),
                    fileTasks := st.tasks.filter (fun t => !(t.id == id)) } ∧
       (∀ t ∈ st.tasks.filter (fun t => !(t.id == id)), t.id ≠ id) ∧
       (∀ t ∈ st.tasks, t.id ≠ id →
          t ∈ st.tasks.filter (fun t => !(t.id == id))))) := by
  constructor
  · intro hall
    have hlen : (st.tasks.filter (fun t => !(t.id == id))).length =
        st.tasks.length := by
      rw [length_filter_eq_iff]
      intro t ht
      simp [hall t ht]
    unfold TomlFileStorage.deleteTask
    rw [hinit]
    simp [hlen]
  · rintro ⟨t0, ht0, hid0⟩
    have hlen : (st.tasks.filter (fun t => !(t.id == id))).length ≠
        st.tasks.length := by
      intro hlen
      have := (length_filter_eq_iff _ st.tasks).mp hlen t0 ht0
      simp [hid0] at this
    refine ⟨?_, ?_, ?_⟩
    · unfold TomlFileStorage.deleteTask
      rw [hinit]
      simp [hlen]
    · intro t ht
      rw [List.mem_filter] at ht
      simpa using ht.2
    · intro t ht hne
      rw [List.mem_filter]
      exact ⟨ht, by simp [hne]⟩

/-- C8 witness: deleting an absent id from the concrete initialized
store is a successful no-op, and deleting a present id removes it. -/
theorem C8_delete_idempotent_witness :
    TomlFileStorage.deleteTask tomlSt "zz" = Except.ok tomlSt ∧
    TomlFileStorage.deleteTask tomlSt "u" =
      Except.ok
        { tomlSt with
            tasks := tomlSt.tasks.filter (fun t => !(t.id == "u")),
            fileTasks := tomlSt.tasks.filter (fun t => !(t.id == "u")) } :=
  ⟨(C8_delete_idempotent tomlSt "tasks.toml" "zz" rfl).1 (by decide),
   ((C8_delete_idempotent tomlSt "tasks.toml" "u" rfl).2
      ⟨mkTask "u" none TaskStatus.PENDING, by decide, rfl⟩).1⟩

/-- C9 (implicit): `TomlFileStorage.getTasks` filters by `parentId` only
when the argument is a truthy (non-empty) string; `getTasks("")` returns
every stored task — including, as the concrete conjuncts show, a task
whose `parentId` is not the empty string. -/
theorem C9_gettasks_empty_string :
    (∀ (st : TomlFileStorage) (p : String), st.filePath = some p →
      TomlFileStorage.getTasks st (some "") = Except.ok st.tasks) ∧
    TomlFileStorage.getTasks tomlSt (some "") = Except.ok tomlSt.tasks ∧
    mkTask "v" (some "x") TaskStatus.PENDING ∈ tomlSt.tasks ∧
    (mkTask "v" (some "x") TaskStatus.PENDING).parentId ≠ some "" := by
  refine ⟨?_, rfl, by decide, by decide⟩
  intro st p hinit
  unfold TomlFileStorage.getTasks
  rw [hinit]
  simp

/-- C9 witness: the general statement applied to the concrete store. -/
theorem C9_gettasks_empty_string_witness :
    TomlFileStorage.getTasks tomlSt (some "") = Except.ok tomlSt.tasks :=
  C9_gettasks_empty_string.1 tomlSt "tasks.toml" rfl

/-- C5: for a literal `from` that does not occur in an existing file's
content, `findAndReplace` appends `to` (after a line break exactly when
the file is non-empty and does not end with one), writes the file, and
reports `appended=true, changed=true`; for a missing file it reports
`FileNotExistedError` with `changed=false`, does not write, and the
remaining patches of the list are still processed against the unchanged
file system. -/
theorem C5_append_on_miss (fs : FileSys) (f fromS toS content : List Char)
    (rest : List FilePatch) :
    ((fsRead fs f = some content → jsIncludes content fromS = false →
      applyOnePatch fs ⟨f, PatchFrom.lit fromS, toS⟩ =
        (fsWrite fs f (padNL content ++ toS), ⟨f, toS, true, true, none⟩))) ∧
    (fsRead fs f = none →
      (applyOnePatch fs ⟨f, PatchFrom.lit fromS, toS⟩ =
        (fs, ⟨f, toS, false, false, some (PatchErr.fileNotExisted f)⟩) ∧
      findAndReplace fs (⟨f, PatchFrom.lit fromS, toS⟩ :: rest) =
        ((findAndReplace fs rest).1,
         ⟨f, toS, false, false, some (PatchErr.fileNotExisted f)⟩ ::
           (findAndReplace fs rest).2))) := by
  constructor
  · intro hread hmiss
    simp [applyOnePatch, hread, hmiss]
  · intro hread
    have h1 : applyOnePatch fs ⟨f, PatchFrom.lit fromS, toS⟩ =
        (fs, ⟨f, toS, false, false, some (PatchErr.fileNotExisted f)⟩) := by
      simp [applyOnePatch, hread]
    refine ⟨h1, ?_⟩
    simp only [findAndReplace, h1]

/-- C5 witness: appending to `a.txt` (present, no trailing newline, the
pattern absent) and failing on the missing `nope.txt`. -/
theorem C5_append_on_miss_witness :
    applyOnePatch patchFs ⟨chars "a.txt", PatchFrom.lit (chars "zz"), chars "NEW"⟩ =
      (fsWrite patchFs (chars "a.txt") (padNL (chars "hello") ++ chars "NEW"),
       ⟨chars "a.txt", chars "NEW", true, true, none⟩) ∧
    applyOnePatch patchFs ⟨chars "nope.txt", PatchFrom.lit (chars "zz"), chars "NEW"⟩ =
      (patchFs, ⟨chars "nope.txt", chars "NEW", false, false,
        some (PatchErr.fileNotExisted (chars "nope.txt"))⟩) :=
  ⟨(C5_append_on_miss patchFs (chars "a.txt") (chars "zz") (chars "NEW")
      (chars "hello") []).1 rfl rfl,
   ((C5_append_on_miss patchFs (chars "nope.txt") (chars "zz") (chars "NEW")
      (chars "hello") []).2 rfl).1⟩

/-- C6: for a literal `from` occurring in an existing file's content,
`findAndReplace` replaces every (leftmost, non-overlapping) occurrence —
the content decomposes as the split pieces joined with `from`, no piece
contains an occurrence, and the result is the same pieces joined with
`to` — writes back, and reports `changed=true` exactly when the result
differs from the original (in particular `from = to` reports
`changed=false` and leaves the file unchanged); a pattern-mode `from`
replaces only the first match. -/
theorem C6_replace_all (fs : FileSys) (f fromS toS content : List Char)
    (hread : fsRead fs f = some content)
    (hinc : jsIncludes content fromS = true) :
    (jsReplaceAll content fromS toS = content →
      applyOnePatch fs ⟨f, PatchFrom.lit fromS, toS⟩ =
        (fs, ⟨f, toS, false, false, none⟩)) ∧
    (jsReplaceAll content fromS toS ≠ content →
      applyOnePatch fs ⟨f, PatchFrom.lit fromS, toS⟩ =
        (fsWrite fs f (jsReplaceAll content fromS toS),
         ⟨f, toS, true, false, none⟩)) ∧
    (fromS ≠ [] →
      (content = joinWith fromS (jsSplit fromS content) ∧
        jsReplaceAll content fromS toS = joinWith toS (jsSplit fromS content) ∧
        ∀ part ∈ jsSplit fromS content, splitFirst fromS part = none)) ∧
    (fromS = toS →
      applyOnePatch fs ⟨f, PatchFrom.lit fromS, toS⟩ =
        (fs, ⟨f, toS, false, false, none⟩)) ∧
    (∀ fm pre mid post, fm content = some (pre, mid, post) →
      pre ++ toS ++ post ≠ content →
      applyOnePatch fs ⟨f, PatchFrom.pat fm, toS⟩ =
        (fsWrite fs f (pre ++ toS ++ post), ⟨f, toS, true, false, none⟩)) := by
  refine ⟨?_, ?_, ?_, ?_, ?_⟩
  · intro heq
    simp [applyOnePatch, hread, hinc, heq]
  · intro hne
    simp [applyOnePatch, hread, hinc, hne]
  · intro hfs
    exact ⟨(jsSplit_join fromS hfs content).symm,
      by simp [jsReplaceAll, hfs],
      jsSplit_parts fromS hfs content⟩
  · intro heq
    subst heq
    simp [applyOnePatch, hread, hinc, jsReplaceAll_self]
  · intro fm pre mid post hfm hne
    have hne' : ¬pre ++ (toS ++ post) = content := by
      simpa [List.append_assoc] using hne
    simp [applyOnePatch, hread, hfm, hne']

/-- C6 witness: replacing every `b` in `abcabc` by `X`, and the
`from = to` no-op. -/
theorem C6_replace_all_witness :
    applyOnePatch patchFs ⟨chars "b.txt", PatchFrom.lit (chars "b"), chars "X"⟩ =
      (fsWrite patchFs (chars "b.txt")
        (jsReplaceAll (chars "abcabc") (chars "b") (chars "X")),
       ⟨chars "b.txt", chars "X", true, false, none⟩) ∧
    applyOnePatch patchFs ⟨chars "b.txt", PatchFrom.lit (chars "b"), chars "b"⟩ =
      (patchFs, ⟨chars "b.txt", chars "b", false, false, none⟩) :=
  ⟨(C6_replace_all patchFs (chars "b.txt") (chars "b") (chars "X")
      (chars "abcabc") rfl rfl).2.1 (by decide),
   (C6_replace_all patchFs (chars "b.txt") (chars "b") (chars "b")
      (chars "abcabc") rfl rfl).2.2.2.1 rfl⟩

/-- C7 code evaluation: creating a child of the known parent `p` does
insert the bullet line immediately after the parent's line, indented one
tab deeper, and `getTasks(p)` does return exactly that child with its id
— but the returned title is `" "`, not `"Child"`: the title regex
`/\[(.*?)\]/` matches the checkbox marker `[ ]` (the first bracketed
span of the line), so the store can never return the task's actual
title, contradicting the claim's "with its id and title". -/
theorem C7_md_roundtrip_eval :
    mdCreateTask mdFs0 "tasks.md" "content" (chars "c") (chars "Child")
        (some (chars "p")) =
      Except.ok [(chars "tasks.md", mdContent1), (chars "content/c.md", [])] ∧
    mdGetTasks mdContent1 (some (chars "p")) =
      [{ id := chars "c", title := chars " ", is_completed := false,
         parentId := some (chars "p") }] ∧
    chars " " ≠ chars "Child" :=
  ⟨rfl, rfl, by decide⟩

end TodoMcp
